import Mathlib

/-!
Verification development for the PromptMCP recipe-to-endpoint compiler
(src/main.py).  Strings are modelled as `List Char`; Python functions are
translated into executable Lean definitions and the spec claims are settled
as theorems about those definitions.
-/

set_option maxHeartbeats 1000000

/-- Strings of the embedded program are lists of characters. -/
abbrev StrL := List Char

/-- Turn a Lean string literal into the embedded string type. -/
def strL (s : String) : StrL := s.toList

/-- Characters stripped by Python str.strip with no argument
(space, tab, newline, carriage return, vertical tab, form feed). -/
def isSpaceChar (c : Char) : Bool :=
  c == ' ' || c == '\t' || c == '\n' || c == '\r' || c == '\x0b' || c == '\x0c'

/-- Remove trailing characters satisfying p (structural helper for strip). -/
def dropTrailWhile (p : Char → Bool) : StrL → StrL
  | [] => []
  | c :: rest =>
    match dropTrailWhile p rest with
    | [] => if p c then [] else [c]
    | d :: t => c :: d :: t

/-- Python str.strip(): remove leading and trailing whitespace. -/
def pyStrip (l : StrL) : StrL := dropTrailWhile isSpaceChar (l.dropWhile isSpaceChar)

/-- Python str.strip("_"): remove leading and trailing underscores. -/
def stripUnd (l : StrL) : StrL :=
  dropTrailWhile (fun c => c == '_') (l.dropWhile (fun c => c == '_'))

/-- ASCII lowercasing of one character, modelling str.lower on the
characters relevant here. -/
def lowerChar (c : Char) : Char :=
  if 65 ≤ c.toNat ∧ c.toNat ≤ 90 then Char.ofNat (c.toNat + 32) else c

/-- Python str.lower() over the embedded string. -/
def toLowerL (l : StrL) : StrL := l.map lowerChar

/-- Membership in the character class [a-z0-9] of the slug regexes. -/
def goodChar (c : Char) : Bool :=
  decide (97 ≤ c.toNat ∧ c.toNat ≤ 122) || decide (48 ≤ c.toNat ∧ c.toNat ≤ 57)

/-- Embedding of re.sub(p+, r, s) for a character class p: every maximal
run of characters satisfying p is replaced by the single character r.
The flag prev records whether the previous character was part of a run. -/
def collapseAux (p : Char → Bool) (r : Char) : Bool → StrL → StrL
  | _, [] => []
  | prev, c :: rest =>
    if p c then (if prev then [] else [r]) ++ collapseAux p r true rest
    else c :: collapseAux p r false rest

/-- Embedding of _slugify from src/main.py: strip and lowercase, replace
runs of characters outside [a-z0-9] by a single underscore, collapse
underscore runs, strip outer underscores, and fall back to "prompt". -/
def slugify (value : StrL) : StrL :=
  let s1 := toLowerL (pyStrip value)
  let s2 := collapseAux (fun c => !goodChar c) '_' false s1
  let s3 := stripUnd (collapseAux (fun c => c == '_') '_' false s2)
  if s3 = [] then strL "prompt" else s3

/-- Python's falsy-or on strings: a or d is d when a is empty. -/
def pyOrStr (a d : StrL) : StrL := if a = [] then d else a

/-- Python type objects returned by _coerce_type (str, float, int, bool). -/
inductive PyType
  | strT
  | floatT
  | intT
  | boolT
deriving DecidableEq, Repr

/-- Embedding of _coerce_type from src/main.py: (t or "string") is
stripped and lowercased and looked up in the type table, defaulting
to str.  The argument none models Python None. -/
def coerce_type (t : Option StrL) : PyType :=
  let s := toLowerL (pyStrip (match t with
    | none => strL "string"
    | some u => pyOrStr u (strL "string")))
  if s = strL "string" then .strT
  else if s = strL "number" then .floatT
  else if s = strL "integer" then .intT
  else if s = strL "int" then .intT
  else if s = strL "float" then .floatT
  else if s = strL "boolean" then .boolT
  else if s = strL "bool" then .boolT
  else .strT

/-- Worker for Python str.replace with a nonempty needle: at skip 0 we
test for a match at the current position and, on a match, emit the
replacement and silently consume the remaining pat.length - 1 matched
characters; a positive skip consumes one matched character. -/
def replaceGo (pat rep : StrL) : Nat → StrL → StrL
  | _, [] => []
  | 0, c :: rest =>
    if pat.isPrefixOf (c :: rest) then rep ++ replaceGo pat rep (pat.length - 1) rest
    else c :: replaceGo pat rep 0 rest
  | k + 1, _ :: rest => replaceGo pat rep k rest

/-- Python s.replace(pat, rep) for a nonempty pat: replace every
non-overlapping occurrence, scanning left to right, never re-scanning
the replacement text within the same call.  All needles in this
program have the form "\x7b\x7b" ++ key ++ "\x7d\x7d", hence are nonempty. -/
def pyReplace (s pat rep : StrL) : StrL := replaceGo pat rep 0 s

/-- Text representation of a supplied value: None renders as the empty
string, a string value as itself (models "" if v is None else str(v)). -/
def pyStr (v : Option StrL) : StrL := match v with | none => [] | some s => s

/-- Placeholder token "\x7b\x7bkey\x7d\x7d" for a parameter key. -/
def placeholder (k : StrL) : StrL := strL "\x7b\x7b" ++ k ++ strL "\x7d\x7d"

/-- Embedding of _make_renderer from src/main.py.  The returned closure
joins the stripped instructions (when truthy) and the template with one
blank line and then folds a str.replace pass over the supplied keyword
arguments in their iteration order. -/
def make_renderer (instructions template : StrL) :
    List (StrL × Option StrL) → StrL :=
  fun kwargs =>
    let text_parts : List StrL :=
      (if instructions ≠ [] ∧ pyStrip instructions ≠ [] then [pyStrip instructions] else [])
      ++ [template]
    let text := List.intercalate (strL "\n\n") text_parts
    kwargs.foldl (fun t kv => pyReplace t (placeholder kv.1) (pyStr kv.2)) text

/-- Raw parameter mapping of a recipe, with Python-absent fields as none. -/
structure RawParam where
  key : Option StrL := none
  input_type : Option StrL := none
  requirement : Option StrL := none
  description : Option StrL := none
deriving DecidableEq, Repr

/-- One compiled inspect.Parameter: its name, annotation type, whether its
Field default marks it required, and its description. -/
structure SigParam where
  name : StrL
  ptype : PyType
  required : Bool
  desc : StrL
deriving DecidableEq, Repr

/-- Python dict assignment d[k] = v on an insertion-ordered dictionary:
an existing key keeps its position and gets the new value, a new key is
appended. -/
def dictSet (d : List (StrL × PyType)) (k : StrL) (v : PyType) : List (StrL × PyType) :=
  if d.any (fun kv => kv.1 == k) then d.map (fun kv => if kv.1 == k then (kv.1, v) else kv)
  else d ++ [(k, v)]

/-- One iteration of the _compute_signature loop body from src/main.py:
skip an empty trimmed key, otherwise append the inspect.Parameter to
sig_params and assign the annotations dictionary entry. -/
def signatureStep (acc : List SigParam × List (StrL × PyType)) (p : RawParam) :
    List SigParam × List (StrL × PyType) :=
  let key := pyStrip (p.key.getD [])
  if key = [] then acc
  else
    let py_type := coerce_type (some (p.input_type.getD (strL "string")))
    let requirement := toLowerL (pyStrip (p.requirement.getD (strL "required")))
    let desc := pyStrip (p.description.getD [])
    (acc.1 ++ [{ name := key, ptype := py_type,
                 required := requirement = strL "required", desc := desc }],
     dictSet acc.2 key py_type)

/-- Embedding of _compute_signature from src/main.py: the for-loop over
the raw parameters accumulating sig_params (a list, duplicates kept) and
the annotations dictionary (duplicates overwrite). -/
def compute_signature (parameters : List RawParam) :
    List SigParam × List (StrL × PyType) :=
  parameters.foldl signatureStep ([], [])

/-- Models inspect.Signature construction over the compiled parameter
list: Python raises ValueError "duplicate parameter name" when two
parameters share a name, otherwise the signature holds the list. -/
def signatureOfParams (ps : List SigParam) : Except StrL (List SigParam) :=
  if (ps.map (fun p => p.name)).Nodup then .ok ps
  else .error (strL "duplicate parameter name")

/-- The two MCP primitives a recipe is registered under. -/
inductive MCPPrimitives
  | prompt
  | tool
deriving DecidableEq, Repr

/-- A registered endpoint: its kind, derived name, display title,
docstring, compiled signature and annotations, and the closed-over
renderer state (instructions and template). -/
structure Endpoint where
  kind : MCPPrimitives
  name : StrL
  displayTitle : StrL
  docstring : StrL
  sig : List SigParam
  ann : List (StrL × PyType)
  instructions : StrL
  template : StrL
deriving DecidableEq, Repr

/-- Invoke a registered endpoint's renderer closure on supplied values. -/
def endpointRender (e : Endpoint) (kwargs : List (StrL × Option StrL)) : StrL :=
  make_renderer e.instructions e.template kwargs

/-- Embedding of _build_and_register_from_recipe from src/main.py.
Building the dynamic signature can raise (duplicate parameter names);
otherwise the endpoint is registered with its derived name, title and
docstring. -/
def build_and_register_from_recipe (kind : MCPPrimitives)
    (title description instructions template : StrL)
    (parameters : List RawParam) (source_name : StrL) : Except StrL Endpoint :=
  let sigAnn := compute_signature parameters
  match signatureOfParams sigAnn.1 with
  | .error e => .error e
  | .ok sig =>
    let kindStr := match kind with | .prompt => strL "prompt" | .tool => strL "tool"
    let capital := match kind with | .prompt => strL "Prompt" | .tool => strL "Tool"
    .ok { kind := kind,
          name := kindStr ++ strL "_" ++ slugify (pyOrStr title source_name),
          displayTitle := pyOrStr title source_name,
          docstring := pyOrStr description
            (capital ++ strL " imported from recipe: " ++ source_name),
          sig := sig, ann := sigAnn.2,
          instructions := instructions, template := template }

/-- Diagnostics the loader logs: a parse failure, a missing-template
skip, or a successful registration record. -/
inductive Diag
  | parseFailure (path : StrL)
  | missingTemplate (path : StrL)
  | registered (kind : MCPPrimitives) (title : StrL) (source : StrL)
deriving DecidableEq, Repr

/-- The nested recipe mapping of a YAML document; absent keys are none. -/
structure RecipeMap where
  title : Option StrL := none
  description : Option StrL := none
  instructions : Option StrL := none
  prompt : Option StrL := none
  parameters : Option (List RawParam) := none
deriving DecidableEq, Repr

/-- A parsed top-level YAML document.  The recipe field is none when the
key is absent or its value is falsy (null or empty mapping), matching
data.get("recipe", \x7b\x7d) or \x7b\x7d. -/
structure TopDoc where
  recipe : Option RecipeMap := none
  name : Option StrL := none
  filename : Option StrL := none
deriving DecidableEq, Repr

/-- Python's falsy-or chaining on optional strings: an absent or empty
value falls through to the default. -/
def pyOrO (a : Option StrL) (d : StrL) : StrL :=
  match a with | none => d | some s => pyOrStr s d

/-- Embedding of _register_recipe_file from src/main.py.  The argument
parsed is the outcome of yaml.safe_load on the file: error for a parse
failure (caught: logged and skipped), ok none for a document that loads
as None (replaced by the empty mapping), ok (some d) otherwise.  The
path stands for both the file path and its basename. -/
def register_recipe_file (parsed : Except StrL (Option TopDoc)) (path : StrL) :
    Except StrL (List Endpoint × List Diag) :=
  match parsed with
  | .error _ => .ok ([], [Diag.parseFailure path])
  | .ok doc =>
    let data : TopDoc := doc.getD {}
    let recipe : RecipeMap := data.recipe.getD {}
    let title := pyOrO recipe.title (pyOrO data.name (pyOrO data.filename path))
    let description := pyOrO recipe.description []
    let instructions := pyOrO recipe.instructions []
    let template := pyOrO recipe.prompt []
    let params := recipe.parameters.getD []
    if template = [] then .ok ([], [Diag.missingTemplate path])
    else
      match build_and_register_from_recipe .prompt title description instructions
              template params path with
      | .error e => .error e
      | .ok e1 =>
        match build_and_register_from_recipe .tool title description instructions
                template params path with
        | .error e => .error e
        | .ok e2 =>
          .ok ([e1, e2],
               [Diag.registered .prompt (pyOrStr title path) path,
                Diag.registered .tool (pyOrStr title path) path])

/-- Embedding of the per-file loop of load_prompts_from_recipes: the
sorted file list is processed in order, each file contributing its
endpoints and diagnostics; an uncaught exception from registration
propagates and aborts the batch. -/
def load_prompts_from_recipes
    (files : List (StrL × Except StrL (Option TopDoc))) :
    Except StrL (List Endpoint × List Diag) :=
  match files with
  | [] => .ok ([], [])
  | (p, doc) :: rest =>
    match register_recipe_file doc p with
    | .error e => .error e
    | .ok r =>
      match load_prompts_from_recipes rest with
      | .error e => .error e
      | .ok rs => .ok (r.1 ++ rs.1, r.2 ++ rs.2)

/-- The fold of str.replace passes the renderer performs over the
supplied values, split out for reasoning about make_renderer. -/
def substAll (kwargs : List (StrL × Option StrL)) (text : StrL) : StrL :=
  kwargs.foldl (fun t kv => pyReplace t (placeholder kv.1) (pyStr kv.2)) text

/-- Every character of the string is in [a-z0-9] or is an underscore. -/
def charsOK (l : StrL) : Bool := l.all (fun c => goodChar c || c == '_')

/-- No two adjacent characters are both underscores. -/
def noAdj : StrL → Bool
  | a :: b :: t => !(a == '_' && b == '_') && noAdj (b :: t)
  | _ => true

/-- The first character, if any, is in [a-z0-9]. -/
def headGood : StrL → Bool
  | [] => true
  | c :: _ => goodChar c

/-- The first character, if any, is not an underscore. -/
def headNotU : StrL → Bool
  | [] => true
  | c :: _ => !(c == '_')

/-- The last character, if any, satisfies p. -/
def lastSat (p : Char → Bool) : StrL → Bool
  | [] => true
  | [c] => p c
  | _ :: b :: t => lastSat p (b :: t)

/-- Recognizer for the regular expression [a-z0-9]+(_[a-z0-9]+)*: the
string is nonempty, uses only [a-z0-9_], has no underscore run, and
starts and ends with an alphanumeric character. -/
def isSlugToken (l : StrL) : Bool :=
  !(l.isEmpty) && charsOK l && noAdj l && headGood l && lastSat goodChar l

/-- Spec-style compilation of one raw parameter into one optional
contract entry: drop empty keys, resolve the type, and mark required
exactly when the requirement field, defaulting to "required" when
absent, equals "required" after trimming and lowercasing. -/
def specEntry (p : RawParam) : Option SigParam :=
  let key := pyStrip (p.key.getD [])
  if key = [] then none
  else some { name := key,
              ptype := coerce_type (some (p.input_type.getD (strL "string"))),
              required := toLowerL (pyStrip (p.requirement.getD (strL "required"))) = strL "required",
              desc := pyStrip (p.description.getD []) }

/-- The parameter list of the spec example
[key "a" requirement "required"; key ""; requirement "required"; key "b"]. -/
def c1ps : List RawParam :=
  [{ key := some (strL "a"), requirement := some (strL "required") },
   { key := some (strL ""), requirement := some (strL "required") },
   { key := some (strL "b") }]

/-- A parameter list with a duplicated non-empty key; the second entry
differs in requirement and declared type so that overwriting is visible. -/
def c2ps : List RawParam :=
  [{ key := some (strL "a"), requirement := some (strL "required") },
   { key := some (strL "a"), input_type := some (strL "int"),
     requirement := some (strL "optional") }]

/-- A recipe document whose parameter list duplicates a key. -/
def dupDoc : TopDoc :=
  { recipe := some { prompt := some (strL "B"), parameters := some c2ps } }

/-- A well-formed recipe document used by the loader theorems. -/
def goodDoc : TopDoc :=
  { recipe := some { title := some (strL "Greet"),
                     prompt := some (strL "Hello \x7b\x7bname\x7d\x7d"),
                     parameters := some [{ key := some (strL "name") }] } }


lemma pyStrip_nil : pyStrip [] = [] := rfl

lemma intercalate_single (sep a : StrL) : List.intercalate sep [a] = a := by
  simp [List.intercalate, List.intersperse]

lemma intercalate_pair (sep a b : StrL) : List.intercalate sep [a, b] = a ++ sep ++ b := by
  simp [List.intercalate, List.intersperse]

lemma pyReplace_no_occurrence (s pat rep : StrL) (h : ¬ pat <:+: s) :
    pyReplace s pat rep = s := by
  induction s with
  | nil => rfl
  | cons c rest ih =>
    have hp : List.isPrefixOf pat (c :: rest) = false := by
      cases hp : List.isPrefixOf pat (c :: rest) with
      | false => rfl
      | true => exact absurd ((List.isPrefixOf_iff_prefix).mp hp).isInfix h
    have hrest : ¬ pat <:+: rest := fun hr => h (List.infix_cons hr)
    show replaceGo pat rep 0 (c :: rest) = c :: rest
    simp only [replaceGo, hp, Bool.false_eq_true, if_false]
    exact congrArg (c :: ·) (ih hrest)

lemma pyReplace_keeps_needle (s pat rep : StrL) (hne : pat ≠ [])
    (hs : pat <:+: s) (hr : pat <:+: rep) : pat <:+: pyReplace s pat rep := by
  induction s with
  | nil => exact absurd (List.eq_nil_of_infix_nil hs) hne
  | cons c rest ih =>
    show pat <:+: replaceGo pat rep 0 (c :: rest)
    cases hp : List.isPrefixOf pat (c :: rest) with
    | true =>
      simp only [replaceGo, hp, if_true]
      obtain ⟨p, q, hpq⟩ := hr
      exact ⟨p, q ++ replaceGo pat rep (pat.length - 1) rest, by
        rw [← hpq]; simp [List.append_assoc]⟩
    | false =>
      have hrest : pat <:+: rest := by
        rcases (List.infix_cons_iff).mp hs with hpre | hinf
        · exact absurd ((List.isPrefixOf_iff_prefix).mpr hpre) (by simp [hp])
        · exact hinf
      simp only [replaceGo, hp, Bool.false_eq_true, if_false]
      exact List.infix_cons (ih hrest)

/-- C7: coerce_type is a total function over optional strings: after
trimming and lowercasing, string and absent input map to str, number and
float to float, integer and int to int, boolean and bool to bool, and
every other value maps to str; in particular "  INTEGER " maps to int,
"unknown" to str and None to str. -/
theorem coerce_type_total_table :
    coerce_type none = PyType.strT ∧
    coerce_type (some []) = PyType.strT ∧
    coerce_type (some (strL "  INTEGER ")) = PyType.intT ∧
    coerce_type (some (strL "unknown")) = PyType.strT ∧
    (∀ s : StrL, s ≠ [] → toLowerL (pyStrip s) = strL "string" →
      coerce_type (some s) = PyType.strT) ∧
    (∀ s : StrL, s ≠ [] →
      toLowerL (pyStrip s) = strL "number" ∨ toLowerL (pyStrip s) = strL "float" →
      coerce_type (some s) = PyType.floatT) ∧
    (∀ s : StrL, s ≠ [] →
      toLowerL (pyStrip s) = strL "integer" ∨ toLowerL (pyStrip s) = strL "int" →
      coerce_type (some s) = PyType.intT) ∧
    (∀ s : StrL, s ≠ [] →
      toLowerL (pyStrip s) = strL "boolean" ∨ toLowerL (pyStrip s) = strL "bool" →
      coerce_type (some s) = PyType.boolT) ∧
    (∀ s : StrL, s ≠ [] →
      toLowerL (pyStrip s) ∉ [strL "string", strL "number", strL "integer", strL "int",
        strL "float", strL "boolean", strL "bool"] →
      coerce_type (some s) = PyType.strT) := by
  refine ⟨by decide, by decide, by decide, by decide, ?_, ?_, ?_, ?_, ?_⟩
  · intro s hs h
    simp only [coerce_type, pyOrStr, if_neg hs, h]
    decide
  · rintro s hs (h | h) <;> simp only [coerce_type, pyOrStr, if_neg hs, h] <;> decide
  · rintro s hs (h | h) <;> simp only [coerce_type, pyOrStr, if_neg hs, h] <;> decide
  · rintro s hs (h | h) <;> simp only [coerce_type, pyOrStr, if_neg hs, h] <;> decide
  · intro s hs h
    simp only [List.mem_cons, List.mem_singleton, not_or] at h
    obtain ⟨h1, h2, h3, h4, h5, h6, h7, -⟩ := h
    simp only [coerce_type, pyOrStr, if_neg hs,
      if_neg h1, if_neg h2, if_neg h3, if_neg h4, if_neg h5, if_neg h6, if_neg h7]

/-- Witness for coerce_type_total_table at concrete inputs. -/
theorem coerce_type_total_table_witness :
    coerce_type (some (strL " Float ")) = PyType.floatT ∧
    coerce_type (some (strL "misspelled")) = PyType.strT :=
  ⟨coerce_type_total_table.2.2.2.2.2.1 _ (by decide) (by decide),
   coerce_type_total_table.2.2.2.2.2.2.2.2 _ (by decide) (by decide)⟩

/-- C5: the rendered output places the stripped instructions block, when
non-empty after trimming, before the template joined by exactly one blank
line, and contributes no extra block when instructions strip to empty;
the two spec examples render exactly as stated. -/
theorem renderer_blank_line_join :
    (∀ i t kw, pyStrip i ≠ [] →
      make_renderer i t kw = substAll kw (pyStrip i ++ strL "\n\n" ++ t)) ∧
    (∀ i t kw, pyStrip i = [] → make_renderer i t kw = substAll kw t) ∧
    make_renderer (strL "Be concise.")
      (strL "Translate \x7b\x7btext\x7d\x7d to \x7b\x7blang\x7d\x7d.")
      [(strL "text", some (strL "hi")), (strL "lang", some (strL "fr"))]
      = strL "Be concise.\n\nTranslate hi to fr." ∧
    make_renderer (strL "") (strL "Body") [] = strL "Body" := by
  refine ⟨?_, ?_, by decide, by decide⟩
  · intro i t kw h
    have hi : i ≠ [] := by rintro rfl; exact h rfl
    simp only [make_renderer, substAll, if_pos (And.intro hi h), List.singleton_append,
      intercalate_pair]
  · intro i t kw h
    have hneg : ¬ (i ≠ [] ∧ pyStrip i ≠ []) := fun hc => hc.2 h
    simp only [make_renderer, substAll, if_neg hneg, List.nil_append, intercalate_single]

/-- Witness for renderer_blank_line_join at concrete inputs. -/
theorem renderer_blank_line_join_witness :
    make_renderer (strL " x ") (strL "T") []
      = substAll [] (pyStrip (strL " x ") ++ strL "\n\n" ++ strL "T") ∧
    make_renderer (strL "  ") (strL "T") [] = substAll [] (strL "T") :=
  ⟨renderer_blank_line_join.1 _ _ _ (by decide),
   renderer_blank_line_join.2.1 _ _ _ (by decide)⟩

/-- C4: the renderer applies, for each supplied key in order, a global
str.replace of the placeholder by the value text, where a null value
renders as the empty string; a text with no occurrence of a placeholder
is left unchanged by that pass, so placeholders of unsupplied keys stay
verbatim; the two spec examples evaluate as stated. -/
theorem renderer_placeholder_substitution :
    (∀ t, make_renderer [] t [] = t) ∧
    (∀ i t k v, make_renderer i t [(k, v)]
      = pyReplace (make_renderer i t []) (placeholder k) (pyStr v)) ∧
    (∀ k, pyStr (none : Option StrL) = [] ∧ placeholder k = strL "\x7b\x7b" ++ k ++ strL "\x7d\x7d") ∧
    (∀ s pat rep, ¬ pat <:+: s → pyReplace s pat rep = s) ∧
    make_renderer [] (strL "Hello \x7b\x7bname\x7d\x7d") [] = strL "Hello \x7b\x7bname\x7d\x7d" ∧
    make_renderer [] (strL "Hello \x7b\x7bname\x7d\x7d!") [(strL "name", none)]
      = strL "Hello !" := by
  refine ⟨?_, ?_, fun k => ⟨rfl, rfl⟩, pyReplace_no_occurrence, by decide, by decide⟩
  · intro t
    simp [make_renderer, intercalate_single]
  · intro i t k v
    rfl

/-- Witness for renderer_placeholder_substitution at concrete inputs. -/
theorem renderer_placeholder_substitution_witness :
    pyReplace (strL "no token here") (strL "\x7b\x7bk\x7d\x7d") (strL "V")
      = strL "no token here" :=
  renderer_placeholder_substitution.2.2.2.1 _ _ _ (by decide)

/-- C3 counterexample: with template "\x7b\x7ba\x7d\x7d \x7b\x7bb\x7d\x7d" and
supplied values a = "\x7b\x7bb\x7d\x7d", b = "X" in that order, the text
substituted for a is re-scanned by the later pass for b: the output is
"X X" and a's supplied value does not appear verbatim in it, refuting
that a supplied value containing another supplied key's placeholder
appears verbatim regardless of which other keys are supplied. -/
theorem substitution_rescans_later_keys_cex :
    make_renderer [] (strL "\x7b\x7ba\x7d\x7d \x7b\x7bb\x7d\x7d")
      [(strL "a", some (strL "\x7b\x7bb\x7d\x7d")), (strL "b", some (strL "X"))]
      = strL "X X" ∧
    ¬ (strL "\x7b\x7bb\x7d\x7d" <:+:
      make_renderer [] (strL "\x7b\x7ba\x7d\x7d \x7b\x7bb\x7d\x7d")
        [(strL "a", some (strL "\x7b\x7bb\x7d\x7d")), (strL "b", some (strL "X"))]) := by
  constructor
  · decide
  · decide

/-- C3 amended: substitution is sequential per supplied key in iteration
order.  The pass for the last supplied key runs over the text produced
by all earlier passes (so earlier substituted values are re-scanned by
later keys), while within a single key's pass the replacement text is
never re-scanned: a replacement value containing its own placeholder
leaves that occurrence in the output. -/
theorem substitution_single_pass_per_key :
    (∀ i t kws k v, make_renderer i t (kws ++ [(k, v)])
      = pyReplace (make_renderer i t kws) (placeholder k) (pyStr v)) ∧
    (∀ s pat rep, pat ≠ [] → pat <:+: s → pat <:+: rep →
      pat <:+: pyReplace s pat rep) := by
  refine ⟨?_, pyReplace_keeps_needle⟩
  intro i t kws k v
  simp only [make_renderer, List.foldl_append, List.foldl_cons, List.foldl_nil]

/-- Witness for substitution_single_pass_per_key at concrete inputs. -/
theorem substitution_single_pass_per_key_witness :
    strL "\x7b\x7ba\x7d\x7d" <:+:
      pyReplace (strL "x \x7b\x7ba\x7d\x7d y") (strL "\x7b\x7ba\x7d\x7d")
        (strL "(\x7b\x7ba\x7d\x7d)") :=
  substitution_single_pass_per_key.2 _ _ _ (by decide) (by decide) (by decide)

lemma signatureStep_fst (acc : List SigParam × List (StrL × PyType)) (p : RawParam) :
    (signatureStep acc p).1 = acc.1 ++ (specEntry p).toList := by
  by_cases h : pyStrip (p.key.getD []) = []
  · simp [signatureStep, specEntry, h]
  · simp [signatureStep, specEntry, h]

lemma foldl_signatureStep (ps : List RawParam) :
    ∀ acc, (List.foldl signatureStep acc ps).1 = acc.1 ++ ps.filterMap specEntry := by
  induction ps with
  | nil => intro acc; simp
  | cons p rest ih =>
    intro acc
    rw [List.foldl_cons, ih, signatureStep_fst, List.filterMap_cons]
    cases specEntry p <;> simp

/-- C1 counterexample: on the spec example parameter list, the entry
with key "b" (requirement absent) is compiled as required, not optional:
an absent requirement defaults to "required" in _compute_signature. -/
theorem requirement_default_cex :
    ((compute_signature c1ps).1.map (fun p => (p.name, p.required))
      = [(strL "a", true), (strL "b", true)]) ∧
    ((compute_signature c1ps).1.map (fun p => (p.name, p.required))
      ≠ [(strL "a", true), (strL "b", false)]) := by
  constructor
  · decide
  · decide

/-- C1 amended: the compiled contract drops entries with an empty
trimmed key and marks an entry required exactly when its requirement
field, which defaults to "required" when absent, equals "required" after
trimming and lowercasing; on the spec example, both surviving entries
"a" and "b" are therefore required. -/
theorem compute_signature_requirement_amended :
    (∀ ps, (compute_signature ps).1 = ps.filterMap specEntry) ∧
    (∀ p, pyStrip (p.key.getD []) = [] → specEntry p = none) ∧
    (∀ p e, specEntry p = some e →
      (e.required = true ↔
        toLowerL (pyStrip (p.requirement.getD (strL "required"))) = strL "required")) ∧
    ((compute_signature c1ps).1.map (fun p => (p.name, p.required))
      = [(strL "a", true), (strL "b", true)]) := by
  refine ⟨?_, ?_, ?_, by decide⟩
  · intro ps
    show (List.foldl signatureStep ([], []) ps).1 = _
    rw [foldl_signatureStep]
    rfl
  · intro p h
    simp [specEntry, h]
  · intro p e h
    by_cases hk : pyStrip (p.key.getD []) = []
    · simp [specEntry, hk] at h
    · simp only [specEntry, if_neg hk, Option.some.injEq] at h
      rw [← h]
      simp

/-- Witness for compute_signature_requirement_amended at concrete inputs. -/
theorem compute_signature_requirement_amended_witness :
    specEntry { key := some (strL " ") } = none ∧
    ({ name := strL "b", ptype := PyType.strT, required := true, desc := [] } : SigParam).required
      = true :=
  ⟨compute_signature_requirement_amended.2.1 _ (by decide),
   (compute_signature_requirement_amended.2.2.1 { key := some (strL "b") } _ (by decide)).mpr
     (by decide)⟩

/-- C2 counterexample: with a duplicated non-empty key "a", the compiled
sig_params list keeps both entries (no overwrite there; only the
annotations dictionary is overwritten), and building the endpoint raises
the duplicate-parameter-name error at signature construction instead of
succeeding. -/
theorem duplicate_keys_cex :
    ((compute_signature c2ps).1.map (fun p => p.name) = [strL "a", strL "a"]) ∧
    ((compute_signature c2ps).1.length ≠ 1) ∧
    ((compute_signature c2ps).2 = [(strL "a", PyType.intT)]) ∧
    (build_and_register_from_recipe .prompt (strL "T") [] [] (strL "Body") c2ps (strL "r.yaml")
      = .error (strL "duplicate parameter name")) := by
  refine ⟨by decide, by decide, by decide, by rfl⟩

/-- C2 amended: duplicate non-empty keys survive as two sig_params
entries while the later entry overwrites the earlier one only in the
annotations dictionary; building either endpoint then fails with the
duplicate-parameter-name error, and such an error propagates out of the
loader, aborting the batch. -/
theorem duplicate_keys_raise_amended :
    (∀ ps title desc instr tmpl src kind,
      ¬ ((compute_signature ps).1.map (fun p => p.name)).Nodup →
      build_and_register_from_recipe kind title desc instr tmpl ps src
        = .error (strL "duplicate parameter name")) ∧
    (∀ p doc rest e, register_recipe_file doc p = .error e →
      load_prompts_from_recipes ((p, doc) :: rest) = .error e) ∧
    ((compute_signature c2ps).1.map (fun p => (p.name, p.required))
      = [(strL "a", true), (strL "a", false)]) ∧
    ((compute_signature c2ps).2 = [(strL "a", PyType.intT)]) := by
  refine ⟨?_, ?_, by decide, by decide⟩
  · intro ps title desc instr tmpl src kind h
    simp [build_and_register_from_recipe, signatureOfParams, h]
  · intro p doc rest e h
    simp [load_prompts_from_recipes, h]

/-- Witness for duplicate_keys_raise_amended at concrete inputs. -/
theorem duplicate_keys_raise_amended_witness :
    build_and_register_from_recipe .tool (strL "T") [] [] (strL "B") c2ps (strL "r.yaml")
      = .error (strL "duplicate parameter name") ∧
    load_prompts_from_recipes [(strL "dup.yaml", .ok (some dupDoc))]
      = .error (strL "duplicate parameter name") :=
  ⟨duplicate_keys_raise_amended.1 c2ps _ _ _ _ _ .tool (by decide),
   duplicate_keys_raise_amended.2.1 _ _ [] _ (by rfl)⟩

/-- C8: a file whose document fails to parse is logged and skipped and
the loader continues with the remaining files; loading one valid and one
malformed file yields exactly the valid file's prompt and tool endpoints
plus a parse-failure diagnostic for the malformed file. -/
theorem parse_failure_skips_file :
    (∀ p e, register_recipe_file (.error e) p = .ok ([], [Diag.parseFailure p])) ∧
    (∀ p e rest r, load_prompts_from_recipes rest = .ok r →
      load_prompts_from_recipes ((p, .error e) :: rest)
        = .ok (r.1, Diag.parseFailure p :: r.2)) ∧
    ((load_prompts_from_recipes
        [(strL "good.yaml", .ok (some goodDoc)), (strL "bad.yaml", .error (strL "boom"))]).toOption.map
        (fun r => (r.1.map (fun ep => (ep.kind, ep.name)), r.2))
      = some ([(MCPPrimitives.prompt, strL "prompt_greet"), (MCPPrimitives.tool, strL "tool_greet")],
          [Diag.registered .prompt (strL "Greet") (strL "good.yaml"),
           Diag.registered .tool (strL "Greet") (strL "good.yaml"),
           Diag.parseFailure (strL "bad.yaml")])) := by
  refine ⟨fun p e => rfl, ?_, by rfl⟩
  intro p e rest r h
  simp [load_prompts_from_recipes, register_recipe_file, h]

/-- Witness for parse_failure_skips_file at concrete inputs. -/
theorem parse_failure_skips_file_witness :
    load_prompts_from_recipes [(strL "bad.yaml", .error (strL "boom"))]
      = .ok ([], [Diag.parseFailure (strL "bad.yaml")]) :=
  parse_failure_skips_file.2.1 _ _ [] ([], []) (by rfl)

/-- C9: every endpoint's renderer is deterministic and depends only on
the closed-over instructions and template and the call-time supplied
values; an endpoint built from a recipe closes over exactly the recipe's
instructions and template. -/
theorem renderer_pure_deterministic :
    (∀ e1 e2 : Endpoint, ∀ kw1 kw2 : List (StrL × Option StrL),
      e1.instructions = e2.instructions → e1.template = e2.template → kw1 = kw2 →
      endpointRender e1 kw1 = endpointRender e2 kw2) ∧
    (∀ kind title desc instr tmpl ps src e,
      build_and_register_from_recipe kind title desc instr tmpl ps src = .ok e →
      e.instructions = instr ∧ e.template = tmpl ∧
        ∀ kw, endpointRender e kw = make_renderer instr tmpl kw) := by
  constructor
  · intro e1 e2 kw1 kw2 h1 h2 h3
    simp [endpointRender, h1, h2, h3]
  · intro kind title desc instr tmpl ps src e h
    simp only [build_and_register_from_recipe] at h
    cases hs : signatureOfParams (compute_signature ps).1 with
    | error m => rw [hs] at h; cases h
    | ok sig =>
      rw [hs] at h
      cases h
      exact ⟨rfl, rfl, fun kw => rfl⟩

/-- Witness for renderer_pure_deterministic at concrete inputs. -/
theorem renderer_pure_deterministic_witness :
    endpointRender
      { kind := .prompt, name := strL "prompt_t", displayTitle := strL "T",
        docstring := [], sig := [], ann := [], instructions := [],
        template := strL "Hi \x7b\x7bx\x7d\x7d" } [(strL "x", some (strL "y"))]
    = endpointRender
      { kind := .tool, name := strL "tool_t", displayTitle := strL "T",
        docstring := strL "other", sig := [], ann := [], instructions := [],
        template := strL "Hi \x7b\x7bx\x7d\x7d" } [(strL "x", some (strL "y"))] :=
  renderer_pure_deterministic.1 _ _ _ _ rfl rfl rfl

/-- C10: a parsed-but-null document, or one without a recipe mapping, is
treated as an empty mapping: its template resolves to empty, the file is
skipped with a missing-template diagnostic (distinct from a parse
failure) and zero endpoints, and no error is raised. -/
theorem null_doc_missing_template :
    (∀ path, register_recipe_file (.ok none) path
      = .ok ([], [Diag.missingTemplate path])) ∧
    (∀ path d, d.recipe = none → register_recipe_file (.ok (some d)) path
      = .ok ([], [Diag.missingTemplate path])) ∧
    (∀ path, Diag.missingTemplate path ≠ Diag.parseFailure path) := by
  refine ⟨fun path => rfl, ?_, fun path h => by cases h⟩
  intro path d h
  simp [register_recipe_file, h, pyOrO]

/-- Witness for null_doc_missing_template at concrete inputs. -/
theorem null_doc_missing_template_witness :
    register_recipe_file (.ok (some { name := some (strL "n") })) (strL "a.yaml")
      = .ok ([], [Diag.missingTemplate (strL "a.yaml")]) :=
  null_doc_missing_template.2.1 _ _ (by rfl)

lemma good_not_underscore (c : Char) (h : goodChar c = true) : (c == '_') = false := by
  cases he : c == '_' with
  | false => rfl
  | true =>
    have hc : c = '_' := beq_iff_eq.mp he
    subst hc
    exact absurd h (by decide)

lemma good_not_space (c : Char) (h : goodChar c = true) : isSpaceChar c = false := by
  have hn : (97 ≤ c.toNat ∧ c.toNat ≤ 122) ∨ (48 ≤ c.toNat ∧ c.toNat ≤ 57) := by
    simpa [goodChar] using h
  have hne : ∀ d : Char, d.toNat < 48 → (c == d) = false := by
    intro d hd
    cases he : c == d with
    | false => rfl
    | true =>
      have hc : c = d := beq_iff_eq.mp he
      subst hc
      rcases hn with ⟨a, b⟩ | ⟨a, b⟩ <;> omega
  simp only [isSpaceChar]
  rw [hne ' ' (by decide), hne '\t' (by decide), hne '\n' (by decide),
    hne '\r' (by decide), hne '\x0b' (by decide), hne '\x0c' (by decide)]
  rfl

lemma lower_fix (c : Char) (h : goodChar c = true ∨ c = '_') : lowerChar c = c := by
  rcases h with h | rfl
  · have hn : (97 ≤ c.toNat ∧ c.toNat ≤ 122) ∨ (48 ≤ c.toNat ∧ c.toNat ≤ 57) := by
      simpa [goodChar] using h
    unfold lowerChar
    exact if_neg (by rcases hn with ⟨a, b⟩ | ⟨a, b⟩ <;> omega)
  · decide

lemma noAdj_tail (c : Char) (l : StrL) (h : noAdj (c :: l) = true) : noAdj l = true := by
  cases l with
  | nil => rfl
  | cons d t =>
    simp only [noAdj, Bool.and_eq_true] at h
    exact h.2

lemma noAdj_cons_of (c : Char) (l : StrL)
    (h1 : (c == '_') = false ∨ headNotU l = true) (h2 : noAdj l = true) :
    noAdj (c :: l) = true := by
  cases l with
  | nil => rfl
  | cons d t =>
    simp only [noAdj, Bool.and_eq_true]
    refine ⟨?_, h2⟩
    rcases h1 with h1 | h1
    · simp [h1]
    · simp only [headNotU, Bool.not_eq_eq_eq_not, Bool.not_true] at h1
      simp [h1]

lemma noAdj_head_after_underscore (l : StrL) (h : noAdj ('_' :: l) = true) :
    headNotU l = true := by
  cases l with
  | nil => rfl
  | cons d t =>
    simp only [noAdj, Bool.and_eq_true] at h
    simp only [headNotU]
    simpa using h.1

lemma dropWhile_eq_self (p : Char → Bool) (l : StrL)
    (h : ∀ c t, l = c :: t → p c = false) : l.dropWhile p = l := by
  cases l with
  | nil => rfl
  | cons c t => simp [List.dropWhile_cons, h c t rfl]

lemma lastSat_mono (p q : Char → Bool) (hpq : ∀ c, p c = true → q c = true) :
    ∀ l : StrL, lastSat p l = true → lastSat q l = true := by
  intro l
  induction l with
  | nil => intro h; exact h
  | cons c t ih =>
    cases t with
    | nil => intro h; exact hpq c h
    | cons d t2 => intro h; exact ih h

lemma dropTrail_cons_eq (p : Char → Bool) (c : Char) (t : StrL) :
    dropTrailWhile p (c :: t) =
      (match dropTrailWhile p t with
        | [] => if p c then [] else [c]
        | d :: t2 => c :: d :: t2) := rfl

lemma dropTrail_fix (p : Char → Bool) : ∀ l : StrL,
    lastSat (fun c => !(p c)) l = true → dropTrailWhile p l = l := by
  intro l
  induction l with
  | nil => intro _; rfl
  | cons c t ih =>
    cases t with
    | nil =>
      intro h
      have hp : p c = false := by simpa [lastSat] using h
      rw [dropTrail_cons_eq]
      simp [dropTrailWhile, hp]
    | cons d t2 =>
      intro h
      have ht : dropTrailWhile p (d :: t2) = d :: t2 := ih h
      rw [dropTrail_cons_eq, ht]

lemma dropTrail_lastNot (p : Char → Bool) : ∀ l : StrL,
    lastSat (fun c => !(p c)) (dropTrailWhile p l) = true := by
  intro l
  induction l with
  | nil => rfl
  | cons c t ih =>
    rw [dropTrail_cons_eq]
    cases hh : dropTrailWhile p t with
    | nil =>
      by_cases hp : p c = true
      · simp [hp, lastSat]
      · have hp2 : p c = false := by
          cases hq : p c with
          | false => rfl
          | true => exact absurd hq hp
        simp [hp2, lastSat]
    | cons d t2 =>
      rw [hh] at ih
      exact ih

lemma charsOK_cons (c : Char) (l : StrL) (h : charsOK (c :: l) = true) :
    (goodChar c || c == '_') = true ∧ charsOK l = true := by
  simpa [charsOK] using h

lemma orSplit (a b : Bool) (h : (a || b) = true) : a = true ∨ b = true := by
  simpa using h

lemma collapse_fix (p : Char → Bool) (hp : ∀ c, goodChar c = true → p c = false) :
    ∀ l : StrL, ∀ prev : Bool, charsOK l = true → noAdj l = true →
      (prev = true → headNotU l = true) → collapseAux p '_' prev l = l := by
  intro l
  induction l with
  | nil => intro prev _ _ _; rfl
  | cons c rest ih =>
    intro prev hc hn hprev
    obtain ⟨hc1, hc2⟩ := charsOK_cons c rest hc
    rcases orSplit _ _ hc1 with hg | hu
    · have hpc : p c = false := hp c hg
      simp only [collapseAux, hpc, Bool.false_eq_true, if_false]
      exact congrArg (c :: ·)
        (ih false hc2 (noAdj_tail c rest hn) (by intro hh; exact absurd hh (by decide)))
    · have hcu : c = '_' := beq_iff_eq.mp hu
      subst hcu
      have hhead : headNotU rest = true := noAdj_head_after_underscore rest hn
      cases hpc : p '_' with
      | true =>
        cases prev with
        | true =>
          have hcontra := hprev rfl
          simp [headNotU] at hcontra
        | false =>
          simp only [collapseAux, hpc, if_true, Bool.false_eq_true, if_false,
            List.singleton_append]
          exact congrArg ('_' :: ·)
            (ih true hc2 (noAdj_tail _ _ hn) (fun _ => hhead))
      | false =>
        simp only [collapseAux, hpc, Bool.false_eq_true, if_false]
        exact congrArg ('_' :: ·)
          (ih false hc2 (noAdj_tail _ _ hn) (by intro hh; exact absurd hh (by decide)))

lemma map_lower_fix : ∀ l : StrL, charsOK l = true → toLowerL l = l := by
  intro l
  induction l with
  | nil => intro _; rfl
  | cons c t ih =>
    intro h
    obtain ⟨h1, h2⟩ := charsOK_cons c t h
    have hc : lowerChar c = c := by
      rcases orSplit _ _ h1 with hg | hu
      · exact lower_fix c (Or.inl hg)
      · exact lower_fix c (Or.inr (beq_iff_eq.mp hu))
    simp only [toLowerL, List.map_cons]
    rw [hc]
    exact congrArg (c :: ·) (ih h2)

lemma slug_fix (l : StrL) (h : isSlugToken l = true) : slugify l = l := by
  have hcomp : (!(l.isEmpty)) = true ∧ charsOK l = true ∧ noAdj l = true ∧
      headGood l = true ∧ lastSat goodChar l = true := by
    simpa [isSlugToken, Bool.and_eq_true, and_assoc] using h
  obtain ⟨hne, hok, hadj, hhead, hlast⟩ := hcomp
  have hne2 : l ≠ [] := by
    cases l with
    | nil => simp at hne
    | cons a b => simp
  have hheadgood : ∀ c t, l = c :: t → goodChar c = true := by
    intro c t he
    subst he
    simpa [headGood] using hhead
  have h1 : l.dropWhile isSpaceChar = l :=
    dropWhile_eq_self _ l (fun c t he => good_not_space c (hheadgood c t he))
  have h2 : dropTrailWhile isSpaceChar l = l :=
    dropTrail_fix _ l
      (lastSat_mono goodChar _ (fun c hc => by simp [good_not_space c hc]) l hlast)
  have hstrip : pyStrip l = l := by rw [pyStrip, h1, h2]
  have hlower : toLowerL l = l := map_lower_fix l hok
  have hcol1 : collapseAux (fun c => !goodChar c) '_' false l = l :=
    collapse_fix _ (fun c hc => by simp [hc]) l false hok hadj
      (by intro hh; exact absurd hh (by decide))
  have hcol2 : collapseAux (fun c => c == '_') '_' false l = l :=
    collapse_fix _ (fun c hc => good_not_underscore c hc) l false hok hadj
      (by intro hh; exact absurd hh (by decide))
  have h3 : l.dropWhile (fun c => c == '_') = l :=
    dropWhile_eq_self _ l (fun c t he => good_not_underscore c (hheadgood c t he))
  have h4 : dropTrailWhile (fun c => c == '_') l = l :=
    dropTrail_fix _ l
      (lastSat_mono goodChar _ (fun c hc => by simp [good_not_underscore c hc]) l hlast)
  have hstripU : stripUnd l = l := by rw [stripUnd, h3, h4]
  simp only [slugify]
  rw [hstrip, hlower, hcol1, hcol2, hstripU, if_neg hne2]

lemma collapse1_charsOK : ∀ (l : StrL) (prev : Bool),
    charsOK (collapseAux (fun c => !goodChar c) '_' prev l) = true := by
  intro l
  induction l with
  | nil => intro prev; rfl
  | cons c rest ih =>
    intro prev
    cases hg : goodChar c with
    | true =>
      simp only [collapseAux, hg, Bool.not_true, Bool.false_eq_true, if_false]
      simpa [charsOK, hg] using ih false
    | false =>
      simp only [collapseAux, hg, Bool.not_false, if_true]
      cases prev with
      | true => simpa using ih true
      | false => simpa [charsOK] using ih true

lemma collapse1_shape : ∀ l : StrL,
    (noAdj (collapseAux (fun c => !goodChar c) '_' true l) = true ∧
      headNotU (collapseAux (fun c => !goodChar c) '_' true l) = true) ∧
    noAdj (collapseAux (fun c => !goodChar c) '_' false l) = true := by
  intro l
  induction l with
  | nil => exact ⟨⟨rfl, rfl⟩, rfl⟩
  | cons c rest ih =>
    obtain ⟨⟨ihT, ihH⟩, ihF⟩ := ih
    cases hg : goodChar c with
    | true =>
      have hcu : (c == '_') = false := good_not_underscore c hg
      refine ⟨⟨?_, ?_⟩, ?_⟩
      · simp only [collapseAux, hg, Bool.not_true, Bool.false_eq_true, if_false]
        exact noAdj_cons_of c _ (Or.inl hcu) ihF
      · simp only [collapseAux, hg, Bool.not_true, Bool.false_eq_true, if_false]
        simp [headNotU, hcu]
      · simp only [collapseAux, hg, Bool.not_true, Bool.false_eq_true, if_false]
        exact noAdj_cons_of c _ (Or.inl hcu) ihF
    | false =>
      refine ⟨⟨?_, ?_⟩, ?_⟩
      · simp only [collapseAux, hg, Bool.not_false, if_true, List.nil_append]
        exact ihT
      · simp only [collapseAux, hg, Bool.not_false, if_true, List.nil_append]
        exact ihH
      · simp only [collapseAux, hg, Bool.not_false, if_true, Bool.false_eq_true,
          if_false, List.singleton_append]
        exact noAdj_cons_of '_' _ (Or.inr ihH) ihT

lemma charsOK_dropWhile (p : Char → Bool) : ∀ l : StrL,
    charsOK l = true → charsOK (l.dropWhile p) = true := by
  intro l
  induction l with
  | nil => intro h; exact h
  | cons c t ih =>
    intro h
    obtain ⟨h1, h2⟩ := charsOK_cons c t h
    by_cases hp : p c = true
    · simp only [List.dropWhile_cons, hp, if_true]
      exact ih h2
    · have hp2 : p c = false := by
        cases hq : p c with
        | false => rfl
        | true => exact absurd hq hp
      simp only [List.dropWhile_cons, hp2, Bool.false_eq_true, if_false]
      exact h

lemma noAdj_dropWhile (p : Char → Bool) : ∀ l : StrL,
    noAdj l = true → noAdj (l.dropWhile p) = true := by
  intro l
  induction l with
  | nil => intro h; exact h
  | cons c t ih =>
    intro h
    by_cases hp : p c = true
    · simp only [List.dropWhile_cons, hp, if_true]
      exact ih (noAdj_tail c t h)
    · have hp2 : p c = false := by
        cases hq : p c with
        | false => rfl
        | true => exact absurd hq hp
      simp only [List.dropWhile_cons, hp2, Bool.false_eq_true, if_false]
      exact h

lemma headNotU_dropWhileU : ∀ l : StrL,
    headNotU (l.dropWhile (fun c => c == '_')) = true := by
  intro l
  induction l with
  | nil => rfl
  | cons c t ih =>
    by_cases hp : (c == '_') = true
    · simp only [List.dropWhile_cons, hp, if_true]
      exact ih
    · have hp2 : (c == '_') = false := by
        cases hq : (c == '_') with
        | false => rfl
        | true => exact absurd hq hp
      simp only [List.dropWhile_cons, hp2, Bool.false_eq_true, if_false]
      simp [headNotU, hp2]

lemma dropTrail_starts (p : Char → Bool) (c : Char) (rest : StrL) :
    dropTrailWhile p (c :: rest) = [] ∨
      ∃ t, dropTrailWhile p (c :: rest) = c :: t := by
  rw [dropTrail_cons_eq]
  cases hh : dropTrailWhile p rest with
  | nil =>
    by_cases hp : p c = true
    · left; simp [hp]
    · right
      have hp2 : p c = false := by
        cases hq : p c with
        | false => rfl
        | true => exact absurd hq hp
      exact ⟨[], by simp [hp2]⟩
  | cons d t2 => right; exact ⟨d :: t2, rfl⟩

lemma charsOK_dropTrail (p : Char → Bool) : ∀ l : StrL,
    charsOK l = true → charsOK (dropTrailWhile p l) = true := by
  intro l
  induction l with
  | nil => intro h; exact h
  | cons c t ih =>
    intro h
    obtain ⟨h1, h2⟩ := charsOK_cons c t h
    rw [dropTrail_cons_eq]
    cases hh : dropTrailWhile p t with
    | nil =>
      by_cases hp : p c = true
      · simp [hp, charsOK]
      · have hp2 : p c = false := by
          cases hq : p c with
          | false => rfl
          | true => exact absurd hq hp
        simp [hp2, charsOK, h1]
    | cons d t2 =>
      have ih2 := ih h2
      rw [hh] at ih2
      simpa [charsOK, h1] using ih2

lemma noAdj_dropTrail (p : Char → Bool) : ∀ l : StrL,
    noAdj l = true → noAdj (dropTrailWhile p l) = true := by
  intro l
  induction l with
  | nil => intro h; exact h
  | cons c t ih =>
    intro h
    rw [dropTrail_cons_eq]
    cases hh : dropTrailWhile p t with
    | nil =>
      by_cases hp : p c = true
      · simp [hp, noAdj]
      · have hp2 : p c = false := by
          cases hq : p c with
          | false => rfl
          | true => exact absurd hq hp
        simp [hp2, noAdj]
    | cons d t2 =>
      have ih2 := ih (noAdj_tail c t h)
      rw [hh] at ih2
      cases t with
      | nil => simp [dropTrailWhile] at hh
      | cons b t3 =>
        rcases dropTrail_starts p b t3 with hnil | ⟨t4, hs⟩
        · rw [hnil] at hh; cases hh
        · rw [hs] at hh
          injection hh with hdb hteq
          subst hdb
          refine noAdj_cons_of c _ ?_ ih2
          simp only [noAdj, Bool.and_eq_true] at h
          have hj := h.1
          by_cases hcu : (c == '_') = true
          · right
            rw [hcu] at hj
            simp only [Bool.true_and] at hj
            simp only [headNotU]
            simpa using hj
          · left
            cases hq : (c == '_') with
            | false => rfl
            | true => exact absurd hq hcu
    
lemma headGood_dropTrail (p : Char → Bool) (l : StrL) (h : headGood l = true) :
    headGood (dropTrailWhile p l) = true := by
  cases l with
  | nil => rfl
  | cons c t =>
    rcases dropTrail_starts p c t with hnil | ⟨t4, hs⟩
    · rw [hnil]; rfl
    · rw [hs]; simpa [headGood] using h

lemma headGood_of (l : StrL) (hok : charsOK l = true) (hnu : headNotU l = true) :
    headGood l = true := by
  cases l with
  | nil => rfl
  | cons c t =>
    obtain ⟨h1, _⟩ := charsOK_cons c t hok
    have hcu : (c == '_') = false := by
      simp only [headNotU] at hnu
      simpa using hnu
    simp only [headGood]
    rcases orSplit _ _ h1 with hg | hu
    · exact hg
    · rw [hu] at hcu; cases hcu

lemma lastGood_of : ∀ l : StrL, charsOK l = true →
    lastSat (fun c => !(c == '_')) l = true → lastSat goodChar l = true := by
  intro l
  induction l with
  | nil => intro _ _; rfl
  | cons c t ih =>
    intro hok hl
    obtain ⟨h1, h2⟩ := charsOK_cons c t hok
    cases t with
    | nil =>
      have hcu : (c == '_') = false := by simpa [lastSat] using hl
      show goodChar c = true
      rcases orSplit _ _ h1 with hg | hu
      · exact hg
      · rw [hu] at hcu; cases hcu
    | cons d t2 => exact ih h2 hl

lemma slugify_shape (v : StrL) : isSlugToken (slugify v) = true := by
  simp only [slugify, stripUnd]
  generalize toLowerL (pyStrip v) = s1
  set u := collapseAux (fun c => !goodChar c) '_' false s1 with hu
  have hok : charsOK u = true := collapse1_charsOK s1 false
  have hadj : noAdj u = true := (collapse1_shape s1).2
  have hcol2 : collapseAux (fun c => c == '_') '_' false u = u :=
    collapse_fix _ (fun c hc => good_not_underscore c hc) u false hok hadj
      (by intro hh; exact absurd hh (by decide))
  rw [hcol2]
  set w := u.dropWhile (fun c => c == '_') with hw
  have hokw : charsOK w = true := charsOK_dropWhile _ u hok
  have hadjw : noAdj w = true := noAdj_dropWhile _ u hadj
  have hnuw : headNotU w = true := headNotU_dropWhileU u
  have hheadw : headGood w = true := headGood_of w hokw hnuw
  set v3 := dropTrailWhile (fun c => c == '_') w with hv3
  have hokv : charsOK v3 = true := charsOK_dropTrail _ w hokw
  have hadjv : noAdj v3 = true := noAdj_dropTrail _ w hadjw
  have hheadv : headGood v3 = true := headGood_dropTrail _ w hheadw
  have hlastv : lastSat (fun c => !(c == '_')) v3 = true := dropTrail_lastNot _ w
  have hgoodlast : lastSat goodChar v3 = true := lastGood_of v3 hokv hlastv
  by_cases hv : v3 = []
  · rw [if_pos hv]; decide
  · rw [if_neg hv]
    have hne : v3.isEmpty = false := by
      cases hcase : v3 with
      | nil => exact absurd hcase hv
      | cons a b => rfl
    simp [isSlugToken, hne, hokv, hadjv, hheadv, hgoodlast]

/-- C6: for every string, slugify returns a non-empty token matching
[a-z0-9]+(_[a-z0-9]+)* (the fallback "prompt" itself matches the
pattern), and slugify is idempotent. -/
theorem slugify_idempotent_and_pattern :
    ∀ x : StrL, isSlugToken (slugify x) = true ∧ slugify (slugify x) = slugify x :=
  fun x => ⟨slugify_shape x, slug_fix _ (slugify_shape x)⟩
